import Mathlib

/-!
# Verification of the Markdown Documentation Indexer (`doc_indexer.py`)

This file is a shallow embedding of the `DocIndexer` batch script: file
discovery, heading/TOC extraction, term/acronym extraction via the two
regular expressions of `extract_terms_and_acronyms`, the in-place TOC
rewriter `update_file_toc`, and the `INDEX.md` generator, together with
theorems settling the specification's claims about them.

Strings are modelled as Lean `String`/`List Char`; file contents are the
exact byte sequences (all inputs of interest are ASCII).  The filesystem
is modelled explicitly: a run is a fold over a list of (path, outcome)
jobs, where an outcome is the content read, a read error, or a write
error, mirroring the per-file `try/except` of `process_file`.
-/

namespace DocIndexer

/-! ## Basic character utilities -/

/-- Python's `\w` for the ASCII inputs considered: letters, digits, `_`. -/
def isWordChar (c : Char) : Bool :=
  c.isAlphanum || c = '_'

/-- Lexicographic comparison of character lists by code point, matching
Python's `<=` on strings (all inputs are ASCII). -/
def charListLe : List Char → List Char → Bool
  | [], _ => true
  | _ :: _, [] => false
  | a :: as, b :: bs =>
    if a = b then charListLe as bs else decide (a.toNat < b.toNat)

/-- Lexicographic string comparison by code point (Python `sorted` order). -/
def strLe (a b : String) : Bool :=
  charListLe a.toList b.toList

/-- Python's `sorted` on strings: stable sort, ascending code-point
lexicographic order. -/
def sortStrings (l : List String) : List String :=
  List.insertionSort (fun a b => strLe a b = true) l

/-- First-match association-list lookup (Python `dict` access by key). -/
def lookupL (key : String) : List (String × α) → Option α
  | [] => none
  | (k, v) :: rest => if k = key then some v else lookupL key rest

/-- The keys of an association list. -/
def keysOf (m : List (String × α)) : List String :=
  m.map Prod.fst

/-- Does `pat` occur as a contiguous substring of `cs`? -/
def containsSub (pat : List Char) : List Char → Bool
  | [] => pat.isEmpty
  | c :: cs => pat.isPrefixOf (c :: cs) || containsSub pat cs

/-! ## Anchor derivation (`extract_headings`, line 33)

`anchor = text.lower().replace(' ', '-').replace('.', '').replace('(', '').replace(')', '')`
-/

/-- Translation of the anchor slug of `extract_headings`: lowercase the
text, replace each space by a hyphen, then delete every `.`, `(`, `)`. -/
def anchor (text : String) : String :=
  String.mk ((((text.toList.map Char.toLower).map
      (fun c => if c = ' ' then '-' else c)).filter
      (fun c => !(c = '.' || c = '(' || c = ')'))))

/-- The anchor rule in the spec's own words, as a single left-to-right
pass: "anchor = `text.lower()` with spaces replaced by hyphens and the
literal characters `.`, `(`, `)` removed". -/
def anchorSpecWords : List Char → List Char
  | [] => []
  | c :: cs =>
    let d := Char.toLower c
    if d = '.' || d = '(' || d = ')' then anchorSpecWords cs
    else (if d = ' ' then '-' else d) :: anchorSpecWords cs

/-! ## Heading extraction

`extract_headings` renders the Markdown to HTML with the third-party
`markdown` package and queries `h1`..`h6` elements with BeautifulSoup;
neither collaborator's source is part of the repository. -/

/-- Number of leading `#` characters of a line. -/
def leadingHashes (l : List Char) : Nat :=
  (l.takeWhile (· = '#')).length

/-- Trim leading and trailing whitespace (Python `str.strip`). -/
def trimWs (l : List Char) : List Char :=
  ((l.dropWhile Char.isWhitespace).reverse.dropWhile Char.isWhitespace).reverse

/-- Split a character list at every `'\n'`. -/
def splitLines : List Char → List (List Char)
  | [] => [[]]
  | c :: cs =>
    let rest := splitLines cs
    if c = '\n' then [] :: rest
    else match rest with
      | [] => [[c]]
      | l :: ls => (c :: l) :: ls

/-- Modelled from the spec: the Markdown-to-HTML renderer and the HTML
query of `extract_headings` are external collaborators whose code is not
in the repository; per the spec only heading elements matter ("a
heading-only lightweight parser — functional equivalence required only
for heading elements `h1`..`h6`").  A line whose run of leading `#`
characters has length 1–6 yields a heading of that level whose text is
the remainder of the line with surrounding whitespace stripped. -/
def headingOfLine (l : List Char) : Option (Nat × String) :=
  let n := leadingHashes l
  if 1 ≤ n ∧ n ≤ 6 then some (n, String.mk (trimWs (l.drop n))) else none

/-- The `(level, text, anchor)` triples recorded by `extract_headings`,
in document order. -/
def extract_headings (content : String) : List (Nat × String × String) :=
  ((splitLines content.toList).filterMap headingOfLine).map
    (fun p => (p.1, p.2, anchor p.2))

/-! ## TOC block construction and the rewrite regex (`update_file_toc`)

The pattern is `## Table of Contents\n(?:[ \t]*-[^\n]*\n)*\n`:
the literal header line, a greedy run of list-item lines, then one more
newline.  Backtracking never helps this pattern: a list-item line starts
with a space, tab or `-`, never with `\n`, so after the maximal run of
list-item lines the match succeeds exactly when the next character is
`\n`.  The deterministic functions below implement that. -/

/-- The characters of the literal header line `## Table of Contents\n`. -/
def tocHeaderChars : List Char :=
  "## Table of Contents\n".toList

/-- The generated TOC block: the header line, then one list line
`{indent}- [{text}](#{anchor})\n` per heading, indented two spaces per
`level - 1` (the `toc_lines` loop of `update_file_toc`). -/
def tocBlockChars (toc : List (Nat × String × String)) : List Char :=
  tocHeaderChars ++ toc.flatMap (fun h =>
    (String.join (List.replicate (h.1 - 1) "  ") ++
      "- [" ++ h.2.1 ++ "](#" ++ h.2.2 ++ ")\n").toList)

/-- Length consumed by one list-item line `[ \t]*-[^\n]*\n` at the head
of `cs`, or `none` if no such line starts here. -/
def listItemLineLen (cs : List Char) : Option Nat :=
  let ws := (cs.takeWhile (fun c => c = ' ' || c = '\t')).length
  match cs.drop ws with
  | '-' :: rest =>
    let body := (rest.takeWhile (· ≠ '\n')).length
    match rest.drop body with
    | '\n' :: _ => some (ws + 1 + body + 1)
    | _ => none
  | _ => none

/-- Total length of the greedy run `(?:[ \t]*-[^\n]*\n)*` at the head
of `cs`.  The fuel only bounds the recursion: every list-item line is
nonempty, so starting the fuel at `cs.length` never cuts the run
short. -/
def listItemsLenF (fuel : Nat) (cs : List Char) : Nat :=
  match fuel with
  | 0 => 0
  | fuel + 1 =>
    match listItemLineLen cs with
    | some n => n + listItemsLenF fuel (cs.drop n)
    | none => 0

/-- The greedy run of list-item lines at the head of `cs`. -/
def listItemsLen (cs : List Char) : Nat :=
  listItemsLenF cs.length cs

/-- Length of the match of the TOC pattern starting exactly at the head
of `cs` (`re` tries every start position; this is one attempt). -/
def tocMatchLen (cs : List Char) : Option Nat :=
  if tocHeaderChars.isPrefixOf cs then
    let rest := cs.drop tocHeaderChars.length
    let k := listItemsLen rest
    match rest.drop k with
    | '\n' :: _ => some (tocHeaderChars.length + k + 1)
    | _ => none
  else none

/-- `re.search` of the TOC pattern: does a match start at some position? -/
def hasTocMatch : List Char → Bool
  | [] => false
  | c :: cs => (tocMatchLen (c :: cs)).isSome || hasTocMatch cs

/-- `re.sub` of the TOC pattern: scan left to right, replace every
non-overlapping match by `rep`, resume after the replaced region.  (The
replacement is inserted literally; the generated TOC text contains no
`re` escape sequences.)  The fuel only bounds the recursion: a match is
never empty, so fuel `cs.length` never stops the scan early. -/
def replaceAllTocF (rep : List Char) : Nat → List Char → List Char
  | _, [] => []
  | 0, cs => cs
  | fuel + 1, c :: cs =>
    match tocMatchLen (c :: cs) with
    | some n => rep ++ replaceAllTocF rep fuel ((c :: cs).drop n)
    | none => c :: replaceAllTocF rep fuel cs

/-- `re.sub` of the TOC pattern over a whole content. -/
def replaceAllToc (rep : List Char) (cs : List Char) : List Char :=
  replaceAllTocF rep cs.length cs

/-! ## First top-level heading (`re.search(r'^#[^#].*$', content, re.MULTILINE)`)

`^` anchors at the string start or just after a `\n`; `#` is literal;
`[^#]` is any single character other than `#` (including `\n`, since a
negated class is not newline-sensitive); `.*` is the maximal run of
non-newline characters; `$` is zero-width.  `match.end()` is therefore
the index just after that run. -/

/-- Length of a `#[^#].*` match starting at the head of `cs` (the head
is known to be at a line start), or `none`. -/
def headingMatchLen (cs : List Char) : Option Nat :=
  match cs with
  | '#' :: c :: rest =>
    if c = '#' then none
    else some (2 + (rest.takeWhile (· ≠ '\n')).length)
  | _ => none

/-- Scan for the leftmost line-start position carrying a `#[^#].*`
match; returns `match.end()` as an absolute index. -/
def firstHeadingEndGo : List Char → Bool → Nat → Option Nat
  | [], _, _ => none
  | c :: rest, atStart, pos =>
    if atStart then
      match headingMatchLen (c :: rest) with
      | some e => some (pos + e)
      | none => firstHeadingEndGo rest (c = '\n') (pos + 1)
    else firstHeadingEndGo rest (c = '\n') (pos + 1)

/-- `first_heading = re.search(r'^#[^#].*$', content, re.MULTILINE)`,
returning `first_heading.end()`. -/
def firstHeadingEnd (cs : List Char) : Option Nat :=
  firstHeadingEndGo cs true 0

/-! ## The TOC rewriter (`update_file_toc`, lines 65-88) -/

/-- Translation of `update_file_toc` acting on the file content, given
the accumulated heading triples for the file.  Returns the new content
written back to disk. -/
def update_file_toc (content : List Char) (toc : List (Nat × String × String)) :
    List Char :=
  let toc_content := tocBlockChars toc
  if hasTocMatch content then
    replaceAllToc (toc_content ++ ['\n']) content
  else
    match firstHeadingEnd content with
    | some pos =>
      content.take pos ++ ('\n' :: '\n' :: toc_content) ++ ('\n' :: content.drop pos)
    | none => toc_content ++ ('\n' :: content)

/-- String-level wrapper of `update_file_toc`. -/
def updateFileTocS (content : String) (toc : List (Nat × String × String)) :
    String :=
  String.mk (update_file_toc content.toList toc)

/-! ## The placement rule as the claim states it (for claim C4)

The claim's first branch requires a block *beginning with the literal
line* `## Table of Contents` — i.e. the block must start at a line
boundary — and replaces "that entire block".  These definitions follow
the claim's words; the code's regex is not anchored at a line start. -/

/-- Is position `i` (0-based) of the original list a line start?  The
scan below carries this flag. -/
def findAnchoredTocGo : List Char → Bool → Nat → Option (Nat × Nat)
  | [], _, _ => none
  | c :: rest, atStart, pos =>
    if atStart then
      match tocMatchLen (c :: rest) with
      | some n => some (pos, n)
      | none => findAnchoredTocGo rest (c = '\n') (pos + 1)
    else findAnchoredTocGo rest (c = '\n') (pos + 1)

/-- The first block that *begins at a line start* with the literal line
`## Table of Contents`, followed by zero or more indented list-item
lines and a blank line: its start position and length. -/
def findAnchoredToc (cs : List Char) : Option (Nat × Nat) :=
  findAnchoredTocGo cs true 0

/-- The claim's own three-way placement rule, verbatim: replace the
line-anchored existing block if there is one; else insert after the
first top-level heading line, separated by a blank line; else prepend. -/
def claimPlacement (content : List Char) (toc : List (Nat × String × String)) :
    List Char :=
  let block := tocBlockChars toc
  match findAnchoredToc content with
  | some (pos, n) =>
    content.take pos ++ (block ++ ['\n']) ++ content.drop (pos + n)
  | none =>
    match firstHeadingEnd content with
    | some pos =>
      content.take pos ++ ('\n' :: '\n' :: block) ++ ('\n' :: content.drop pos)
    | none => block ++ ('\n' :: content)

/-- The amended first branch: the existing-TOC test is a plain substring
search — the block need not begin at a line boundary — and *every* such
non-overlapping block is replaced, scanning left to right.  Branches
two and three are unchanged. -/
def amendedPlacement (content : List Char) (toc : List (Nat × String × String)) :
    List Char :=
  let block := tocBlockChars toc
  if ∃ i < content.length, (tocMatchLen (content.drop i)).isSome then
    replaceAllToc (block ++ ['\n']) content
  else
    match firstHeadingEnd content with
    | some pos =>
      content.take pos ++ ('\n' :: '\n' :: block) ++ ('\n' :: content.drop pos)
    | none => block ++ ('\n' :: content)

/-! ## The `extract_terms_and_acronyms` patterns

Term pattern:
`\b(?:[A-Z][a-z]+[A-Z][a-z]+[a-zA-Z]*|[a-z]+_[a-z]+(?:_[a-z]+)*|[a-z]+-[a-z]+(?:-[a-z]+)*)\b`
Acronym pattern: `\b[A-Z]{2,}s?\b`.

The boundary-free core of each pattern is represented as a regular
expression and matched with Brzozowski derivatives.  `re.findall` scans
left to right; an attempt at a position succeeds only if a word
boundary precedes it, and the backtracking engine accepts a prefix of
the input in the core language whose end also lies on a word boundary.
For these patterns the accepted prefix is the *longest* such prefix:
each alternative consumes, after a forced shape, maximal runs whose
give-back can never re-establish the trailing boundary (the character
class runs end only where a non-matching character follows), the
alternatives are mutually exclusive at any given start (the first
character and the first non-lowercase character decide which can
apply), and the outermost repetitions prefer more groups.  After a
match the scan resumes at its end. -/

/-- Regular expressions over characters: empty language, empty string,
single-character class, concatenation, alternation, Kleene star. -/
inductive RE where
  | none : RE
  | eps : RE
  | cls (p : Char → Bool) : RE
  | cat (a b : RE) : RE
  | alt (a b : RE) : RE
  | star (r : RE) : RE

/-- Does the language of `r` contain the empty string? -/
def RE.nullable : RE → Bool
  | .none => false
  | .eps => true
  | .cls _ => false
  | .cat a b => a.nullable && b.nullable
  | .alt a b => a.nullable || b.nullable
  | .star _ => true

/-- Concatenation with on-the-fly simplification (keeps derivative
terms small; the language is unchanged). -/
def RE.mkCat : RE → RE → RE
  | .none, _ => .none
  | _, .none => .none
  | .eps, b => b
  | a, .eps => a
  | a, b => .cat a b

/-- Alternation with on-the-fly simplification. -/
def RE.mkAlt : RE → RE → RE
  | .none, b => b
  | a, .none => a
  | a, b => .alt a b

/-- Brzozowski derivative of `r` by the character `c`. -/
def RE.deriv : RE → Char → RE
  | .none, _ => .none
  | .eps, _ => .none
  | .cls p, c => if p c then .eps else .none
  | .cat a b, c =>
    if a.nullable then .mkAlt (.mkCat (a.deriv c) b) (b.deriv c)
    else .mkCat (a.deriv c) b
  | .alt a b, c => .mkAlt (a.deriv c) (b.deriv c)
  | .star r, c => .mkCat (r.deriv c) (.star r)

/-- One-or-more repetition. -/
def RE.plus (r : RE) : RE := .cat r (.star r)

/-- Zero-or-one repetition. -/
def RE.opt (r : RE) : RE := .alt .eps r

/-- `[A-Z][a-z]+[A-Z][a-z]+[a-zA-Z]*` (the CamelCase alternative). -/
def camelRE : RE :=
  .cat (.cls Char.isUpper) (.cat (RE.plus (.cls Char.isLower))
    (.cat (.cls Char.isUpper) (.cat (RE.plus (.cls Char.isLower))
      (.star (.cls Char.isAlpha)))))

/-- `[a-z]+_[a-z]+(?:_[a-z]+)*` (the snake_case alternative). -/
def snakeRE : RE :=
  .cat (RE.plus (.cls Char.isLower)) (.cat (.cls (· = '_'))
    (.cat (RE.plus (.cls Char.isLower))
      (.star (.cat (.cls (· = '_')) (RE.plus (.cls Char.isLower))))))

/-- `[a-z]+-[a-z]+(?:-[a-z]+)*` (the hyphenated alternative). -/
def hyphenRE : RE :=
  .cat (RE.plus (.cls Char.isLower)) (.cat (.cls (· = '-'))
    (.cat (RE.plus (.cls Char.isLower))
      (.star (.cat (.cls (· = '-')) (RE.plus (.cls Char.isLower))))))

/-- The boundary-free core of the term pattern. -/
def termRE : RE := .alt camelRE (.alt snakeRE hyphenRE)

/-- The boundary-free core of the acronym pattern `[A-Z]{2,}s?`. -/
def acroRE : RE :=
  .cat (.cls Char.isUpper) (.cat (.cls Char.isUpper)
    (.cat (.star (.cls Char.isUpper)) (RE.opt (.cls (· = 's')))))

/-- A word boundary `\b` between an optional previous and next
character: exactly one side is a word character (a missing side counts
as non-word). -/
def isBoundary (prev next : Option Char) : Bool :=
  (prev.elim false isWordChar) != (next.elim false isWordChar)

/-- Walk the derivatives of `r` along `cs`, keeping the largest count
`k` of consumed characters (at least one) at which the current
derivative is nullable and a word boundary follows.  `prev` is the last
consumed character, `k` the number consumed so far. -/
def lmGo (r : RE) (prev : Char) (cs : List Char) (k : Nat) : Option Nat :=
  let here := if r.nullable && isBoundary (some prev) cs.head? then some k
    else Option.none
  match cs with
  | [] => here
  | c :: rest =>
    match lmGo (r.deriv c) c rest (k + 1) with
    | some k' => some k'
    | Option.none => here

/-- The length of the prefix of `cs` accepted by a single attempt of
the backtracking engine for `\b core \b` at this start position
(boundary at the start is checked by the caller): the longest nonempty
prefix in the core language ending on a word boundary. -/
def longestMatch (r : RE) : List Char → Option Nat
  | [] => Option.none
  | c :: cs => lmGo (r.deriv c) c cs 1

/-- `re.findall` for `\b core \b`: scan left to right; at each position
lying on a word boundary, attempt a match; on success record the
matched characters and resume at the match end, otherwise advance one
character.  `prev` is the character before the current position.  The
fuel only bounds the recursion: a match consumes at least one
character, so fuel `cs.length` never stops the scan early. -/
def findAllREF (r : RE) : Nat → Option Char → List Char → List (List Char)
  | _, _, [] => []
  | 0, _, _ => []
  | fuel + 1, prev, c :: rest =>
    if isBoundary prev (some c) then
      match longestMatch r (c :: rest) with
      | some k =>
        (c :: rest).take k ::
          findAllREF r fuel ((c :: rest).get? (k - 1)) ((c :: rest).drop k)
      | Option.none => findAllREF r fuel (some c) rest
    else findAllREF r fuel (some c) rest

/-- `re.findall` for `\b core \b` over a whole content. -/
def findAllRE (r : RE) (prev : Option Char) (cs : List Char) :
    List (List Char) :=
  findAllREF r cs.length prev cs

/-- The list of term strings `re.findall` produces for the term pattern
over a file's raw text (line 39 of `doc_indexer.py`). -/
def findTermStrings (content : String) : List String :=
  (findAllRE termRE Option.none content.toList).map String.mk

/-- The list of acronym strings `re.findall` produces for the acronym
pattern over a file's raw text (line 44 of `doc_indexer.py`). -/
def findAcronymStrings (content : String) : List String :=
  (findAllRE acroRE Option.none content.toList).map String.mk

/-! ## File discovery (`find_markdown_files`, lines 14-21)

`os.walk` is modelled by an explicit directory tree.  `os.walk` visits
the root first, yielding its file list, then descends into each
subdirectory in listing order; `os.path.join(root, file)` is modelled
as `root ++ "/" ++ file`. -/

/-- A filesystem entry: a file or a directory with children. -/
inductive FSEntry where
  | file (name : String) : FSEntry
  | dir (name : String) (children : List FSEntry) : FSEntry

/-- `file.endswith(('.md', '.markdown'))`. -/
def isMarkdownName (name : String) : Bool :=
  ".md".toList.isSuffixOf name.toList || ".markdown".toList.isSuffixOf name.toList

/-- The name of a file entry, `none` for a directory. -/
def entryFileName : FSEntry → Option String
  | .file n => some n
  | .dir _ _ => none

/-- The markdown files directly inside one directory, joined to its
path (one `os.walk` iteration's inner loop). -/
def mdFilesOf (p : String) (entries : List FSEntry) : List String :=
  ((entries.filterMap entryFileName).filter isMarkdownName).map
    (fun n => p ++ "/" ++ n)

/-- The markdown files of all subdirectories of a directory,
recursively, in `os.walk` top-down order. -/
def walkSubdirs (p : String) : List FSEntry → List String
  | [] => []
  | .file _ :: rest => walkSubdirs p rest
  | .dir n ch :: rest =>
    (mdFilesOf (p ++ "/" ++ n) ch ++ walkSubdirs (p ++ "/" ++ n) ch) ++
      walkSubdirs p rest

/-- Translation of `find_markdown_files`: every file under the tree
whose name ends in `.md` or `.markdown`, with no directory skipped. -/
def find_markdown_files (root : String) (entries : List FSEntry) : List String :=
  mdFilesOf root entries ++ walkSubdirs root entries

/-- All (path, name) pairs of *every* file under the tree, with no
filtering at all — the reference the discovery claim compares against. -/
def allFilePairs (p : String) (entries : List FSEntry) : List (String × String) :=
  ((entries.filterMap entryFileName).map (fun n => (p ++ "/" ++ n, n))) ++
    allFileSub p entries
where
  /-- The pairs contributed by subdirectories. -/
  allFileSub (p : String) : List FSEntry → List (String × String)
  | [] => []
  | .file _ :: rest => allFileSub p rest
  | .dir n ch :: rest =>
    (((ch.filterMap entryFileName).map
        (fun m => (p ++ "/" ++ n ++ "/" ++ m, m))) ++
      allFileSub (p ++ "/" ++ n) ch) ++ allFileSub p rest

/-! ## Per-file processing and accumulator state (`process_file`) -/

/-- What happens when the batch loop reaches one file: the content is
read, or reading raises, or reading succeeds and the TOC write-back
raises (`process_file` wraps all three in one `try/except`). -/
inductive FileOutcome where
  | ok (content : String) : FileOutcome
  | readError (msg : String) : FileOutcome
  | writeError (content : String) (msg : String) : FileOutcome
deriving DecidableEq

/-- The content the body of `process_file` works on, when the read
succeeded. -/
def outcomeContent : FileOutcome → Option String
  | .ok c => some c
  | .readError _ => Option.none
  | .writeError c _ => some c

/-- Add an element to a Python `set` modelled as a duplicate-free list. -/
def setAdd (s : List String) (p : String) : List String :=
  if p ∈ s then s else s ++ [p]

/-- `self.terms[term].add(file_path)` on a `defaultdict(set)` modelled
as an association list in key-creation order. -/
def addOcc : List (String × List String) → String → String → List (String × List String)
  | [], t, p => [(t, [p])]
  | (k, s) :: rest, t, p =>
    if k = t then (k, setAdd s p) :: rest else (k, s) :: addOcc rest t p

/-- Record one file's matches: `for term in tech_terms: self.terms[term].add(file_path)`. -/
def addMatches (m : List (String × List String)) (ms : List String)
    (path : String) : List (String × List String) :=
  ms.foldl (fun acc t => addOcc acc t path) m

/-- `self.toc[file_path].append(...)` for each heading, on a
`defaultdict(list)`: append all of `hs` to the entry of `path`,
creating it if needed.  Only called when `hs` is nonempty. -/
def appendToc : List (String × List (Nat × String × String)) → String →
    List (Nat × String × String) → List (String × List (Nat × String × String))
  | [], path, hs => [(path, hs)]
  | (k, v) :: rest, path, hs =>
    if k = path then (k, v ++ hs) :: rest else (k, v) :: appendToc rest path hs

/-- Reading `self.toc[rel_path]` in a truth test: on a `defaultdict`
the read itself creates an empty entry when the key is missing. -/
def ensureKey (m : List (String × List (Nat × String × String))) (path : String) :
    List (String × List (Nat × String × String)) :=
  if (lookupL path m).isSome then m else m ++ [(path, [])]

/-- Write-or-insert of a file's on-disk content. -/
def setContent : List (String × String) → String → String → List (String × String)
  | [], path, c => [(path, c)]
  | (k, v) :: rest, path, c =>
    if k = path then (k, c) :: rest else (k, v) :: setContent rest path c

/-- The in-memory accumulators of a `DocIndexer` run, plus the disk
writes it performed, the error lines it printed, and the files its loop
reached. -/
structure IndexerState where
  terms : List (String × List String)
  acronyms : List (String × List String)
  toc : List (String × List (Nat × String × String))
  contents : List (String × String)
  logs : List String
  processed : List String

/-- The state at the start of a run. -/
def emptyState : IndexerState :=
  { terms := [], acronyms := [], toc := [], contents := [], logs := [],
    processed := [] }

/-- The error line `print(f"Error processing {file_path}: {str(e)}")`. -/
def errorLine (path msg : String) : String :=
  "Error processing " ++ path ++ ": " ++ msg

/-- Translation of `process_file` for one file.  Paths are taken
root-relative, so `os.path.relpath(file_path, self.root_dir)` is the
path itself.  On success: extract headings and terms/acronyms, then
test `if self.toc[rel_path]:` (which creates the entry), and rewrite
the file when the list is nonempty.  Any exception is caught: the error
line is printed and the state is otherwise as far as the body got. -/
def process_file (st : IndexerState) (path : String) (oc : FileOutcome) :
    IndexerState :=
  match oc with
  | .readError msg =>
    { st with logs := st.logs ++ [errorLine path msg],
              processed := st.processed ++ [path] }
  | .ok c =>
    let hs := extract_headings c
    let toc1 := if hs = [] then st.toc else appendToc st.toc path hs
    let toc2 := ensureKey toc1 path
    let cur := (lookupL path toc2).getD []
    { st with
      terms := addMatches st.terms (findTermStrings c) path
      acronyms := addMatches st.acronyms (findAcronymStrings c) path
      toc := toc2
      contents := if cur = [] then st.contents
        else setContent st.contents path (String.mk (update_file_toc c.toList cur))
      processed := st.processed ++ [path] }
  | .writeError c msg =>
    let hs := extract_headings c
    let toc1 := if hs = [] then st.toc else appendToc st.toc path hs
    let toc2 := ensureKey toc1 path
    let cur := (lookupL path toc2).getD []
    { st with
      terms := addMatches st.terms (findTermStrings c) path
      acronyms := addMatches st.acronyms (findAcronymStrings c) path
      toc := toc2
      logs := if cur = [] then st.logs else st.logs ++ [errorLine path msg]
      processed := st.processed ++ [path] }

/-- The main loop: `for file_path in markdown_files: indexer.process_file(file_path)`. -/
def runBatch (st : IndexerState) (jobs : List (String × FileOutcome)) :
    IndexerState :=
  jobs.foldl (fun s j => process_file s j.1 j.2) st

/-- A whole run in which every file reads and writes cleanly. -/
def runIndexer (files : List (String × String)) : IndexerState :=
  runBatch emptyState (files.map (fun p => (p.1, .ok p.2)))

/-! ## The aggregate index (`generate_index`, lines 90-120) -/

/-- Sort an association list by key, code-point lexicographically
(Python's `sorted(d.items())`: keys are unique, so the tuple comparison
never reaches the values). -/
def sortByKey (m : List (String × α)) : List (String × α) :=
  List.insertionSort (fun a b => strLe a.1 b.1 = true) m

/-- One TOC line of the Files section:
`f"{indent}- [{text}]({file_path}#{anchor})\n"`. -/
def renderIndexHeading (path : String) (h : Nat × String × String) : String :=
  String.join (List.replicate (h.1 - 1) "  ") ++
    "- [" ++ h.2.1 ++ "](" ++ path ++ "#" ++ h.2.2 ++ ")\n"

/-- One file's entry of the Files section: its `###` subheading, its
TOC lines, and a closing blank line. -/
def renderFileEntry (e : String × List (Nat × String × String)) : String :=
  "### " ++ e.1 ++ "\n\n" ++ String.join (e.2.map (renderIndexHeading e.1)) ++ "\n"

/-- One glossary entry (shared by Technical Terms and Acronyms): the
bold key, then one nested link per containing file, sorted. -/
def renderGlossEntry (e : String × List String) : String :=
  "- **" ++ e.1 ++ "**\n" ++
    String.join ((sortStrings e.2).map (fun f => "  - [" ++ f ++ "](" ++ f ++ ")\n"))

/-- Translation of `generate_index`: the content written to `INDEX.md`. -/
def generate_index (toc : List (String × List (Nat × String × String)))
    (terms acronyms : List (String × List String)) : String :=
  "# Documentation Index\n\n" ++ "## Files\n\n" ++
    String.join ((sortByKey toc).map renderFileEntry) ++
    "## Technical Terms\n\n" ++
    String.join ((sortByKey terms).map renderGlossEntry) ++ "\n" ++
    "## Acronyms\n\n" ++
    String.join ((sortByKey acronyms).map renderGlossEntry)

/-! ## Derived runs and concrete inputs used by the claims -/

/-- One pass of the TOC rewriter over a file, heading extraction
included, as a fresh run performs it on a file with at least one
heading: `update_file_toc(path, content)` with the headings freshly
extracted from that same content. -/
def rewriteRun (s : String) : String :=
  updateFileTocS s (extract_headings s)

/-- How many lines of a content are exactly `## Table of Contents`. -/
def tocHeaderLineCount (s : String) : Nat :=
  ((splitLines s.toList).filter
    (fun l => l = "## Table of Contents".toList)).length

/-- The first file of the two-file scenario of the spec (§8). -/
def exampleAMd : String := "# Intro\n\nSome PYTHON_SCRIPT and camelCaseWord here."

/-- The second file of the two-file scenario of the spec (§8). -/
def exampleBMd : String := "## Section\n\nAnother camelCaseWord."

/-- The state after the full two-file scenario run. -/
def exampleRun : IndexerState :=
  runIndexer [("a.md", exampleAMd), ("b.md", exampleBMd)]

/-- A concrete batch with a read failure, a clean file and a write
failure, used to witness the error-containment claim. -/
def exampleJobs : List (String × FileOutcome) :=
  [("a.md", .readError "boom"), ("b.md", .ok "# T\n"),
   ("c.md", .writeError "# U\n" "disk full")]

/-! # Theorems -/

/-! ## Supporting lemmas -/

theorem anchorWords_eq (l : List Char) :
    (((l.map Char.toLower).map (fun c => if c = ' ' then '-' else c)).filter
      (fun c => !(c = '.' || c = '(' || c = ')'))) = anchorSpecWords l := by
  induction l with
  | nil => rfl
  | cons c cs ih =>
    simp only [List.map_cons, List.filter_cons, anchorSpecWords]
    by_cases h1 : Char.toLower c = ' '
    · simp [h1]
      simpa using ih
    · by_cases h2 : Char.toLower c = '.'
      · simp [h1, h2]
        simpa using ih
      · by_cases h3 : Char.toLower c = '('
        · simp [h1, h2, h3]
          simpa using ih
        · by_cases h4 : Char.toLower c = ')'
          · simp [h1, h2, h3, h4]
            simpa using ih
          · simp [h1, h2, h3, h4]
            simpa using ih

theorem hasTocMatch_iff (cs : List Char) :
    hasTocMatch cs = true ↔
      ∃ i < cs.length, (tocMatchLen (cs.drop i)).isSome := by
  induction cs with
  | nil => simp [hasTocMatch]
  | cons c rest ih =>
    simp only [hasTocMatch, Bool.or_eq_true, ih]
    constructor
    · rintro (h | ⟨i, hi, hsome⟩)
      · exact ⟨0, by simp, by simpa using h⟩
      · exact ⟨i + 1, by simpa using hi, by simpa using hsome⟩
    · rintro ⟨i, hi, hsome⟩
      match i with
      | 0 => exact Or.inl (by simpa using hsome)
      | i + 1 =>
        exact Or.inr ⟨i, by simpa using hi, by simpa using hsome⟩

/-! ## Claim C3: anchor derivation -/

/-- C3: anchor derivation is a pure deterministic function of the
heading text alone — the text lowercased, spaces replaced by hyphens,
and every literal `.`, `(`, `)` removed — and on the heading text
`Getting Started (Quickly)` it yields `getting-started-quickly`. -/
theorem claim_C3_anchor_rule :
    (∀ text : String, anchor text = String.mk (anchorSpecWords text.toList)) ∧
    anchor "Getting Started (Quickly)" = "getting-started-quickly" :=
  ⟨fun text => congrArg String.mk (anchorWords_eq text.toList), by decide⟩

/-! ## Claim C4: the three-way placement rule of the TOC rewriter -/

/-- C4 counterexample: on the content `x ## Table of Contents\n\n` the
code replaces a "block" that does not begin at a line start (the search
regex is not anchored), while the rule as claimed finds no existing
block and no top-level heading, hence prepends.  The outputs differ. -/
theorem claim_C4_counterexample :
    update_file_toc "x ## Table of Contents\n\n".toList [(1, "A", "a")] ≠
      claimPlacement "x ## Table of Contents\n\n".toList [(1, "A", "a")] := by
  decide

/-- C4 (amended): the rewriter follows the three-way placement rule
with the existing-TOC branch amended to a plain substring test — the
block may start anywhere, not only at a line boundary, and every such
non-overlapping block is replaced; the other two branches are as
claimed. -/
theorem claim_C4_placement_rule (content : List Char)
    (toc : List (Nat × String × String)) :
    update_file_toc content toc = amendedPlacement content toc := by
  unfold update_file_toc amendedPlacement
  by_cases h : hasTocMatch content
  · rw [if_pos h, if_pos ((hasTocMatch_iff content).1 h)]
  · rw [if_neg h, if_neg (fun hx => h ((hasTocMatch_iff content).2 hx))]

/-! ## Claim C1: idempotence of the TOC rewrite -/

/-- C1 counterexample: on the file `# A\n` (which has one heading) the
second rewriter run does not reproduce the first run byte for byte:
the `## Table of Contents` line inserted by the first run is itself
extracted as a heading by the second run, which therefore adds a
`Table of Contents` entry to the TOC list. -/
theorem claim_C1_counterexample :
    extract_headings "# A\n" ≠ [] ∧
    rewriteRun (rewriteRun "# A\n") ≠ rewriteRun "# A\n" := by
  decide

/-- C1 (amended): on that file the second run nevertheless detects and
replaces the previously inserted block rather than duplicating it —
each run's output contains exactly one `## Table of Contents` line —
and byte-identical output holds from the second run on: the third run
reproduces the second exactly. -/
theorem claim_C1_stabilizes :
    rewriteRun (rewriteRun (rewriteRun "# A\n")) =
      rewriteRun (rewriteRun "# A\n") ∧
    tocHeaderLineCount (rewriteRun "# A\n") = 1 ∧
    tocHeaderLineCount (rewriteRun (rewriteRun "# A\n")) = 1 := by
  decide

/-! ## Claim C2: the two-file scenario -/

/-- C2 counterexample: `camelCaseWord` starts with a lowercase letter,
so it matches no alternative of the term pattern (the CamelCase branch
requires an uppercase start); the Technical Terms section of the
generated index does not list it for any file. -/
theorem claim_C2_counterexample :
    lookupL "camelCaseWord" exampleRun.terms = Option.none ∧
    containsSub "camelCaseWord".toList
      (generate_index exampleRun.toc exampleRun.terms
        exampleRun.acronyms).toList = false := by
  decide

/-- C2 (amended): the run adds to `a.md` a `## Table of Contents` block
linking to `#intro`, gives `b.md` a TOC block whose single entry links
to `#section` (prepended, since a `##` line is not a top-level
heading), and produces an index whose Files section lists both files —
but whose Technical Terms and Acronyms sections are empty:
`camelCaseWord` fails every term alternative (lowercase start) and
`PYTHON_SCRIPT` fails both patterns (its underscore is a word character,
so no word boundary exists around `PYTHON` or `SCRIPT`). -/
theorem claim_C2_scenario :
    lookupL "a.md" exampleRun.contents =
      some "# Intro\n\n## Table of Contents\n- [Intro](#intro)\n\n\n\nSome PYTHON_SCRIPT and camelCaseWord here." ∧
    lookupL "b.md" exampleRun.contents =
      some "## Table of Contents\n  - [Section](#section)\n\n## Section\n\nAnother camelCaseWord." ∧
    exampleRun.terms = [] ∧ exampleRun.acronyms = [] ∧
    generate_index exampleRun.toc exampleRun.terms exampleRun.acronyms =
      "# Documentation Index\n\n## Files\n\n### a.md\n\n- [Intro](a.md#intro)\n\n### b.md\n\n  - [Section](b.md#section)\n\n## Technical Terms\n\n\n## Acronyms\n\n" := by
  decide

/-! ## Supporting lemmas about the accumulator state -/

theorem lookupL_appendToc (m : List (String × List (Nat × String × String)))
    (path : String) (hs : List (Nat × String × String)) :
    lookupL path (appendToc m path hs) =
      some ((lookupL path m).getD [] ++ hs) := by
  induction m with
  | nil => simp [appendToc, lookupL]
  | cons kv rest ih =>
    by_cases h : kv.1 = path
    · simp [appendToc, lookupL, h]
    · simp [appendToc, lookupL, h, ih]

theorem ensureKey_of_isSome {m : List (String × List (Nat × String × String))}
    {path : String} (h : (lookupL path m).isSome) : ensureKey m path = m := by
  unfold ensureKey
  rw [if_pos h]

theorem lookupL_append_single {m : List (String × α)} {path : String}
    (v : α) (h : lookupL path m = Option.none) :
    lookupL path (m ++ [(path, v)]) = some v := by
  induction m with
  | nil => simp [lookupL]
  | cons kv rest ih =>
    by_cases hk : kv.1 = path
    · simp [lookupL, hk] at h
    · simp only [lookupL, hk, List.cons_append, if_neg hk] at h ⊢
      exact ih h

theorem process_file_processed (st : IndexerState) (path : String)
    (oc : FileOutcome) :
    (process_file st path oc).processed = st.processed ++ [path] := by
  cases oc <;> rfl

theorem runBatch_cons (st : IndexerState) (j : String × FileOutcome)
    (rest : List (String × FileOutcome)) :
    runBatch st (j :: rest) = runBatch (process_file st j.1 j.2) rest := rfl

theorem runBatch_processed (st : IndexerState)
    (jobs : List (String × FileOutcome)) :
    (runBatch st jobs).processed = st.processed ++ jobs.map Prod.fst := by
  induction jobs generalizing st with
  | nil => simp [runBatch]
  | cons j rest ih =>
    rw [runBatch_cons, ih, process_file_processed]
    simp

theorem logs_subset_process_file (st : IndexerState) (path : String)
    (oc : FileOutcome) : st.logs ⊆ (process_file st path oc).logs := by
  cases oc with
  | ok c => exact fun x hx => hx
  | readError msg => exact fun x hx => List.mem_append_left _ hx
  | writeError c msg =>
    intro x hx
    simp only [process_file]
    split <;> split <;>
      first
        | exact hx
        | exact List.mem_append_left _ hx

theorem logs_subset_runBatch (st : IndexerState)
    (jobs : List (String × FileOutcome)) :
    st.logs ⊆ (runBatch st jobs).logs := by
  induction jobs generalizing st with
  | nil => exact fun x hx => hx
  | cons j rest ih =>
    intro x hx
    rw [runBatch_cons]
    exact ih _ (logs_subset_process_file st j.1 j.2 hx)

theorem errorLine_mem_readError (st : IndexerState) (path msg : String) :
    errorLine path msg ∈ (process_file st path (.readError msg)).logs := by
  simp [process_file]

theorem errorLine_mem_writeError (st : IndexerState) (path c msg : String)
    (h : extract_headings c ≠ []) :
    errorLine path msg ∈ (process_file st path (.writeError c msg)).logs := by
  simp only [process_file, if_neg h]
  have hcur : (lookupL path
      (ensureKey (appendToc st.toc path (extract_headings c)) path)).getD [] ≠ [] := by
    rw [ensureKey_of_isSome (by rw [lookupL_appendToc]; rfl), lookupL_appendToc]
    simp [h]
  rw [if_neg hcur]
  simp

/-! ## Claim C5: per-file error containment -/

/-- C5: every exception raised while reading or rewriting a file is
caught by `process_file`: the loop reaches every file of the batch no
matter which fail, and each failing file contributes an error line
holding its path and the message (a write failure presupposes a write,
i.e. at least one heading). -/
theorem claim_C5_error_containment (st : IndexerState)
    (jobs : List (String × FileOutcome)) :
    ((runBatch st jobs).processed = st.processed ++ jobs.map Prod.fst) ∧
    (∀ path msg, (path, FileOutcome.readError msg) ∈ jobs →
      errorLine path msg ∈ (runBatch st jobs).logs) ∧
    (∀ path c msg, (path, FileOutcome.writeError c msg) ∈ jobs →
      extract_headings c ≠ [] →
      errorLine path msg ∈ (runBatch st jobs).logs) := by
  refine ⟨runBatch_processed st jobs, ?_, ?_⟩
  · intro path msg hmem
    induction jobs generalizing st with
    | nil => cases hmem
    | cons j rest ih =>
      rw [runBatch_cons]
      rcases List.mem_cons.1 hmem with heq | htail
      · cases heq.symm
        exact logs_subset_runBatch _ rest (errorLine_mem_readError st path msg)
      · exact ih _ htail
  · intro path c msg hmem hhead
    induction jobs generalizing st with
    | nil => cases hmem
    | cons j rest ih =>
      rw [runBatch_cons]
      rcases List.mem_cons.1 hmem with heq | htail
      · cases heq.symm
        exact logs_subset_runBatch _ rest
          (errorLine_mem_writeError st path c msg hhead)
      · exact ih _ htail

/-- C5 witness: a concrete three-file batch in which the first file
fails to read and the third fails to write; both error lines are
logged and all three files are reached. -/
theorem claim_C5_witness :
    (runBatch emptyState exampleJobs).processed =
      emptyState.processed ++ exampleJobs.map Prod.fst ∧
    errorLine "a.md" "boom" ∈ (runBatch emptyState exampleJobs).logs ∧
    errorLine "c.md" "disk full" ∈ (runBatch emptyState exampleJobs).logs :=
  ⟨(claim_C5_error_containment emptyState exampleJobs).1,
   (claim_C5_error_containment emptyState exampleJobs).2.1 "a.md" "boom"
     (by decide),
   (claim_C5_error_containment emptyState exampleJobs).2.2 "c.md" "# U\n"
     "disk full" (by decide) (by decide)⟩

/-! ## Claim C6: zero headings means no write -/

/-- C6: for a file not seen before in the run, when heading extraction
finds nothing, `process_file` performs no write: the on-disk contents
are left exactly as they were (so in particular no
`## Table of Contents` block appears). -/
theorem claim_C6_no_write (st : IndexerState) (path content : String)
    (hh : extract_headings content = [])
    (hfresh : lookupL path st.toc = Option.none) :
    (process_file st path (.ok content)).contents = st.contents := by
  simp only [process_file, if_pos hh]
  have hkey : ensureKey st.toc path = st.toc ++ [(path, [])] := by
    unfold ensureKey
    rw [if_neg (by simp [hfresh])]
  rw [hkey, lookupL_append_single [] hfresh]
  simp

/-- C6 witness: a concrete heading-less file leaves the disk untouched. -/
theorem claim_C6_witness :
    (process_file emptyState "c.md" (.ok "plain text\n")).contents =
      emptyState.contents :=
  claim_C6_no_write emptyState "c.md" "plain text\n" (by decide) (by decide)

/-! ## Claim C10: heading-less files still get an (empty) index entry -/

/-- C10: for a file not seen before in the run, even when heading
extraction finds nothing, the truth test `if self.toc[rel_path]:`
creates an empty entry for the file in the per-file TOC mapping, and
the generated index therefore lists the path as a `###` subheading of
the Files section with no list items under it. -/
theorem claim_C10_empty_entry (st : IndexerState) (path content : String)
    (hh : extract_headings content = [])
    (hfresh : lookupL path st.toc = Option.none) :
    lookupL path (process_file st path (.ok content)).toc = some [] ∧
    renderFileEntry (path, []) = "### " ++ path ++ "\n\n" ++ "\n" ∧
    generate_index [(path, [])] [] [] =
      "# Documentation Index\n\n## Files\n\n" ++
        ("### " ++ path ++ "\n\n" ++ "\n") ++
        "## Technical Terms\n\n" ++ "\n" ++ "## Acronyms\n\n" := by
  refine ⟨?_, ?_, ?_⟩
  · simp only [process_file, if_pos hh]
    have hkey : ensureKey st.toc path = st.toc ++ [(path, [])] := by
      unfold ensureKey
      rw [if_neg (by simp [hfresh])]
    rw [hkey, lookupL_append_single [] hfresh]
  · simp [renderFileEntry, String.join]
  · simp [generate_index, sortByKey, List.insertionSort, renderFileEntry,
      renderGlossEntry, String.join]

/-- C10 witness: a concrete heading-less file gains an empty TOC entry
and an itemless Files subheading. -/
theorem claim_C10_witness :
    lookupL "c.md" (process_file emptyState "c.md"
      (.ok "plain text only\n")).toc = some [] ∧
    renderFileEntry ("c.md", []) = "### " ++ "c.md" ++ "\n\n" ++ "\n" ∧
    generate_index [("c.md", [])] [] [] =
      "# Documentation Index\n\n## Files\n\n" ++
        ("### " ++ "c.md" ++ "\n\n" ++ "\n") ++
        "## Technical Terms\n\n" ++ "\n" ++ "## Acronyms\n\n" :=
  claim_C10_empty_entry emptyState "c.md" "plain text only\n"
    (by decide) (by decide)

/-! ## Claim C7: exactness of the term/acronym indices -/

theorem mem_setAdd {s : List String} {p q : String} :
    p ∈ setAdd s q ↔ p ∈ s ∨ p = q := by
  unfold setAdd
  by_cases h : q ∈ s
  · rw [if_pos h]
    constructor
    · exact Or.inl
    · rintro (hp | rfl)
      · exact hp
      · exact h
  · rw [if_neg h]
    simp

theorem mem_lookupL_addOcc (m : List (String × List String))
    (t t' path p : String) :
    p ∈ (lookupL t (addOcc m t' path)).getD [] ↔
      p ∈ (lookupL t m).getD [] ∨ (t' = t ∧ path = p) := by
  induction m with
  | nil =>
    by_cases h : t' = t
    · subst h
      simp [addOcc, lookupL, eq_comm]
    · simp [addOcc, lookupL, h]
  | cons kv rest ih =>
    rcases kv with ⟨k, s⟩
    by_cases hk : k = t'
    · subst hk
      by_cases ht : k = t
      · subst ht
        simp [addOcc, lookupL, mem_setAdd, eq_comm]
      · simp [addOcc, lookupL, ht]
    · by_cases ht : k = t
      · subst ht
        have ht' : ¬t' = k := fun hx => hk hx.symm
        simp [addOcc, lookupL, hk, ht']
      · simp [addOcc, lookupL, hk, ht, ih]

theorem mem_lookupL_addMatches (m : List (String × List String))
    (ms : List String) (path t p : String) :
    p ∈ (lookupL t (addMatches m ms path)).getD [] ↔
      p ∈ (lookupL t m).getD [] ∨ (t ∈ ms ∧ path = p) := by
  induction ms generalizing m with
  | nil => simp [addMatches]
  | cons x xs ih =>
    have hstep : addMatches m (x :: xs) path =
        addMatches (addOcc m x path) xs path := rfl
    rw [hstep, ih, mem_lookupL_addOcc]
    simp only [List.mem_cons]
    constructor
    · rintro ((hm | ⟨rfl, hp⟩) | ⟨hx, hp⟩)
      · exact Or.inl hm
      · exact Or.inr ⟨Or.inl rfl, hp⟩
      · exact Or.inr ⟨Or.inr hx, hp⟩
    · rintro (hm | ⟨(rfl | hx), hp⟩)
      · exact Or.inl (Or.inl hm)
      · exact Or.inl (Or.inr ⟨rfl, hp⟩)
      · exact Or.inr ⟨hx, hp⟩

theorem process_file_terms (st : IndexerState) (path : String)
    (oc : FileOutcome) :
    (process_file st path oc).terms =
      match outcomeContent oc with
      | some c => addMatches st.terms (findTermStrings c) path
      | Option.none => st.terms := by
  cases oc <;> rfl

theorem process_file_acronyms (st : IndexerState) (path : String)
    (oc : FileOutcome) :
    (process_file st path oc).acronyms =
      match outcomeContent oc with
      | some c => addMatches st.acronyms (findAcronymStrings c) path
      | Option.none => st.acronyms := by
  cases oc <;> rfl

theorem mem_terms_runBatch (jobs : List (String × FileOutcome))
    (st : IndexerState) (t p : String) :
    p ∈ (lookupL t (runBatch st jobs).terms).getD [] ↔
      p ∈ (lookupL t st.terms).getD [] ∨
        ∃ j ∈ jobs, j.1 = p ∧
          ∃ c, outcomeContent j.2 = some c ∧ t ∈ findTermStrings c := by
  induction jobs generalizing st with
  | nil => simp [runBatch]
  | cons j rest ih =>
    rw [runBatch_cons, ih]
    rcases j with ⟨path, oc⟩
    rw [process_file_terms]
    cases oc with
    | readError msg =>
      simp only [outcomeContent, List.mem_cons]
      constructor
      · rintro (hm | ⟨j, hj, hrest⟩)
        · exact Or.inl hm
        · exact Or.inr ⟨j, Or.inr hj, hrest⟩
      · rintro (hm | ⟨j, (rfl | hj), hp, c, hc, htc⟩)
        · exact Or.inl hm
        · cases hc
        · exact Or.inr ⟨j, hj, hp, c, hc, htc⟩
    | ok c =>
      simp only [outcomeContent, List.mem_cons, mem_lookupL_addMatches]
      constructor
      · rintro ((hm | ⟨htc, rfl⟩) | ⟨j, hj, hrest⟩)
        · exact Or.inl hm
        · exact Or.inr ⟨(path, .ok c), Or.inl rfl, rfl, c, rfl, htc⟩
        · exact Or.inr ⟨j, Or.inr hj, hrest⟩
      · rintro (hm | ⟨j, (rfl | hj), hp, c', hc, htc⟩)
        · exact Or.inl (Or.inl hm)
        · cases hc
          exact Or.inl (Or.inr ⟨htc, hp⟩)
        · exact Or.inr ⟨j, hj, hp, c', hc, htc⟩
    | writeError c msg =>
      simp only [outcomeContent, List.mem_cons, mem_lookupL_addMatches]
      constructor
      · rintro ((hm | ⟨htc, rfl⟩) | ⟨j, hj, hrest⟩)
        · exact Or.inl hm
        · exact Or.inr ⟨(path, .writeError c msg), Or.inl rfl, rfl, c, rfl, htc⟩
        · exact Or.inr ⟨j, Or.inr hj, hrest⟩
      · rintro (hm | ⟨j, (rfl | hj), hp, c', hc, htc⟩)
        · exact Or.inl (Or.inl hm)
        · cases hc
          exact Or.inl (Or.inr ⟨htc, hp⟩)
        · exact Or.inr ⟨j, hj, hp, c', hc, htc⟩

theorem mem_acronyms_runBatch (jobs : List (String × FileOutcome))
    (st : IndexerState) (t p : String) :
    p ∈ (lookupL t (runBatch st jobs).acronyms).getD [] ↔
      p ∈ (lookupL t st.acronyms).getD [] ∨
        ∃ j ∈ jobs, j.1 = p ∧
          ∃ c, outcomeContent j.2 = some c ∧ t ∈ findAcronymStrings c := by
  induction jobs generalizing st with
  | nil => simp [runBatch]
  | cons j rest ih =>
    rw [runBatch_cons, ih]
    rcases j with ⟨path, oc⟩
    rw [process_file_acronyms]
    cases oc with
    | readError msg =>
      simp only [outcomeContent, List.mem_cons]
      constructor
      · rintro (hm | ⟨j, hj, hrest⟩)
        · exact Or.inl hm
        · exact Or.inr ⟨j, Or.inr hj, hrest⟩
      · rintro (hm | ⟨j, (rfl | hj), hp, c, hc, htc⟩)
        · exact Or.inl hm
        · cases hc
        · exact Or.inr ⟨j, hj, hp, c, hc, htc⟩
    | ok c =>
      simp only [outcomeContent, List.mem_cons, mem_lookupL_addMatches]
      constructor
      · rintro ((hm | ⟨htc, rfl⟩) | ⟨j, hj, hrest⟩)
        · exact Or.inl hm
        · exact Or.inr ⟨(path, .ok c), Or.inl rfl, rfl, c, rfl, htc⟩
        · exact Or.inr ⟨j, Or.inr hj, hrest⟩
      · rintro (hm | ⟨j, (rfl | hj), hp, c', hc, htc⟩)
        · exact Or.inl (Or.inl hm)
        · cases hc
          exact Or.inl (Or.inr ⟨htc, hp⟩)
        · exact Or.inr ⟨j, hj, hp, c', hc, htc⟩
    | writeError c msg =>
      simp only [outcomeContent, List.mem_cons, mem_lookupL_addMatches]
      constructor
      · rintro ((hm | ⟨htc, rfl⟩) | ⟨j, hj, hrest⟩)
        · exact Or.inl hm
        · exact Or.inr ⟨(path, .writeError c msg), Or.inl rfl, rfl, c, rfl, htc⟩
        · exact Or.inr ⟨j, Or.inr hj, hrest⟩
      · rintro (hm | ⟨j, (rfl | hj), hp, c', hc, htc⟩)
        · exact Or.inl (Or.inl hm)
        · cases hc
          exact Or.inl (Or.inr ⟨htc, hp⟩)
        · exact Or.inr ⟨j, hj, hp, c', hc, htc⟩

/-- C7: after a full run, a path belongs to the file set of a term
(resp. acronym) exactly when that exact string was matched by the term
(resp. acronym) pattern in that file — no false inclusion, no omission;
and the mappings only grow during a run, entries are never removed. -/
theorem claim_C7_index_exactness :
    (∀ (files : List (String × String)) (t p : String),
      (p ∈ (lookupL t (runIndexer files).terms).getD [] ↔
        ∃ f ∈ files, f.1 = p ∧ t ∈ findTermStrings f.2) ∧
      (p ∈ (lookupL t (runIndexer files).acronyms).getD [] ↔
        ∃ f ∈ files, f.1 = p ∧ t ∈ findAcronymStrings f.2)) ∧
    (∀ (st : IndexerState) (jobs : List (String × FileOutcome)) (t p : String),
      (p ∈ (lookupL t st.terms).getD [] →
        p ∈ (lookupL t (runBatch st jobs).terms).getD []) ∧
      (p ∈ (lookupL t st.acronyms).getD [] →
        p ∈ (lookupL t (runBatch st jobs).acronyms).getD [])) := by
  constructor
  · intro files t p
    constructor
    · rw [runIndexer, mem_terms_runBatch]
      simp only [emptyState, lookupL, Option.getD_none, List.not_mem_nil,
        false_or, List.mem_map]
      constructor
      · rintro ⟨j, ⟨f, hf, rfl⟩, hp, c, hc, htc⟩
        cases hc
        exact ⟨f, hf, hp, htc⟩
      · rintro ⟨f, hf, hp, htc⟩
        exact ⟨(f.1, .ok f.2), ⟨f, hf, rfl⟩, hp, f.2, rfl, htc⟩
    · rw [runIndexer, mem_acronyms_runBatch]
      simp only [emptyState, lookupL, Option.getD_none, List.not_mem_nil,
        false_or, List.mem_map]
      constructor
      · rintro ⟨j, ⟨f, hf, rfl⟩, hp, c, hc, htc⟩
        cases hc
        exact ⟨f, hf, hp, htc⟩
      · rintro ⟨f, hf, hp, htc⟩
        exact ⟨(f.1, .ok f.2), ⟨f, hf, rfl⟩, hp, f.2, rfl, htc⟩
  · intro st jobs t p
    constructor
    · intro hm
      rw [mem_terms_runBatch]
      exact Or.inl hm
    · intro hm
      rw [mem_acronyms_runBatch]
      exact Or.inl hm

/-- C7 witness: in a one-file state, membership survives two further
files. -/
theorem claim_C7_witness :
    "a.md" ∈ (lookupL "file_path"
      (runBatch (runIndexer [("a.md", "file_path")]) exampleJobs).terms).getD [] :=
  (claim_C7_index_exactness.2 (runIndexer [("a.md", "file_path")])
    exampleJobs "file_path" "a.md").1 (by decide)

/-! ## Claim C8: file discovery -/

theorem mdFilesOf_eq (p : String) (entries : List FSEntry) :
    mdFilesOf p entries =
      ((((entries.filterMap entryFileName).map (fun n => (p ++ "/" ++ n, n))).filter
        (fun e => isMarkdownName e.2)).map Prod.fst) := by
  unfold mdFilesOf
  rw [List.filter_map, List.map_map]
  rfl

theorem walkSubdirs_eq (p : String) (es : List FSEntry) :
    walkSubdirs p es =
      ((allFilePairs.allFileSub p es).filter
        (fun e => isMarkdownName e.2)).map Prod.fst := by
  induction p, es using walkSubdirs.induct with
  | case1 p => simp [walkSubdirs, allFilePairs.allFileSub]
  | case2 p n rest ih =>
    simp only [walkSubdirs, allFilePairs.allFileSub]
    exact ih
  | case3 p n ch rest ih1 ih2 =>
    simp only [walkSubdirs, allFilePairs.allFileSub, List.filter_append,
      List.map_append]
    rw [mdFilesOf_eq, ih1, ih2]

/-- C8: the discoverer returns exactly the paths of the files anywhere
under the tree whose names end in `.md` or `.markdown`: the result is
the unfiltered recursive file listing restricted by name only — no
directory is skipped. -/
theorem claim_C8_discovery (root : String) (entries : List FSEntry) :
    find_markdown_files root entries =
      ((allFilePairs root entries).filter
        (fun e => isMarkdownName e.2)).map Prod.fst := by
  unfold find_markdown_files allFilePairs
  rw [List.filter_append, List.map_append, mdFilesOf_eq, walkSubdirs_eq]

/-! ## Claim C9: structure and ordering of `INDEX.md` -/

theorem char_toNat_inj {a b : Char} (h : Char.toNat a = Char.toNat b) :
    a = b :=
  Char.ext (UInt32.toNat.inj h)

theorem charListLe_total : ∀ a b : List Char,
    charListLe a b = true ∨ charListLe b a = true
  | [], _ => Or.inl rfl
  | _ :: _, [] => Or.inr rfl
  | a :: as, b :: bs => by
    by_cases h : a = b
    · subst h
      simp only [charListLe, if_pos rfl]
      exact charListLe_total as bs
    · have hv : Char.toNat a ≠ Char.toNat b := fun hx => h (char_toNat_inj hx)
      have hne : ¬b = a := fun hx => h hx.symm
      simp only [charListLe, if_neg h, if_neg hne, decide_eq_true_eq]
      omega

theorem charListLe_trans : ∀ a b c : List Char,
    charListLe a b = true → charListLe b c = true → charListLe a c = true
  | [], _, _, _, _ => rfl
  | _ :: _, [], _, h1, _ => by simp [charListLe] at h1
  | _ :: _, _ :: _, [], _, h2 => by simp [charListLe] at h2
  | a :: as, b :: bs, c :: cs, h1, h2 => by
    by_cases hab : a = b <;> by_cases hbc : b = c
    · subst hab
      subst hbc
      simp only [charListLe, if_pos rfl] at h1 h2 ⊢
      exact charListLe_trans as bs cs h1 h2
    · subst hab
      simp only [charListLe, if_pos rfl, if_neg hbc, decide_eq_true_eq] at h1 h2 ⊢
      exact h2
    · subst hbc
      simp only [charListLe, if_neg hab, if_pos rfl, decide_eq_true_eq] at h1 h2 ⊢
      exact h1
    · simp only [charListLe, if_neg hab, if_neg hbc, decide_eq_true_eq] at h1 h2
      by_cases hac : a = c
      · subst hac
        omega
      · simp only [charListLe, if_neg hac, decide_eq_true_eq]
        omega

theorem strLe_total (a b : String) : strLe a b = true ∨ strLe b a = true :=
  charListLe_total a.toList b.toList

theorem strLe_trans (a b c : String) :
    strLe a b = true → strLe b c = true → strLe a c = true :=
  charListLe_trans a.toList b.toList c.toList

theorem pairwise_sortByKey (m : List (String × α)) :
    List.Pairwise (fun a b : String × α => strLe a.1 b.1 = true)
      (sortByKey m) := by
  haveI : IsTotal (String × α) (fun a b => strLe a.1 b.1 = true) :=
    ⟨fun a b => strLe_total a.1 b.1⟩
  haveI : IsTrans (String × α) (fun a b => strLe a.1 b.1 = true) :=
    ⟨fun a b c => strLe_trans a.1 b.1 c.1⟩
  exact List.sorted_insertionSort _ m

theorem pairwise_sortStrings (l : List String) :
    List.Pairwise (fun a b : String => strLe a b = true) (sortStrings l) := by
  haveI : IsTotal String (fun a b => strLe a b = true) := ⟨strLe_total⟩
  haveI : IsTrans String (fun a b => strLe a b = true) := ⟨strLe_trans⟩
  exact List.sorted_insertionSort _ l

/-- C9: the generated index is, in this order, the top-level title, the
Files section, the Technical Terms section and the Acronyms section;
the file paths of the Files section come sorted lexicographically, the
keys of the two glossaries come sorted lexicographically, and each
glossary entry lists its files sorted lexicographically. -/
theorem claim_C9_index_structure
    (toc : List (String × List (Nat × String × String)))
    (terms acronyms : List (String × List String)) :
    (generate_index toc terms acronyms =
      "# Documentation Index\n\n" ++ "## Files\n\n" ++
        String.join ((sortByKey toc).map renderFileEntry) ++
        "## Technical Terms\n\n" ++
        String.join ((sortByKey terms).map renderGlossEntry) ++ "\n" ++
        "## Acronyms\n\n" ++
        String.join ((sortByKey acronyms).map renderGlossEntry)) ∧
    List.Pairwise (fun a b : String => strLe a b = true)
      ((sortByKey toc).map Prod.fst) ∧
    List.Pairwise (fun a b : String => strLe a b = true)
      ((sortByKey terms).map Prod.fst) ∧
    List.Pairwise (fun a b : String => strLe a b = true)
      ((sortByKey acronyms).map Prod.fst) ∧
    (∀ e : String × List String,
      renderGlossEntry e = "- **" ++ e.1 ++ "**\n" ++
        String.join ((sortStrings e.2).map
          (fun f => "  - [" ++ f ++ "](" ++ f ++ ")\n")) ∧
      List.Pairwise (fun a b : String => strLe a b = true) (sortStrings e.2)) :=
  ⟨rfl,
   List.Pairwise.map Prod.fst (fun _ _ h => h) (pairwise_sortByKey toc),
   List.Pairwise.map Prod.fst (fun _ _ h => h) (pairwise_sortByKey terms),
   List.Pairwise.map Prod.fst (fun _ _ h => h) (pairwise_sortByKey acronyms),
   fun e => ⟨rfl, pairwise_sortStrings e.2⟩⟩

end DocIndexer
